import Mathlib

/- Verification of the cascading-picklist engine in
   src/src/common/cascading.service.ts.

   Modelling conventions:
   - JavaScript objects are association lists (String keyed) in insertion
     order; property lookup is first-match (`alookup`), `hasOwnProperty`
     is `(alookup l k).isSome`, and `obj[k] = v` on a present key is
     `assocSet` (value replaced in place).
   - An absent / empty field value on the work-item form is the empty
     string (the source tests values with JavaScript truthiness).
   - The asynchronous host form service (IWorkItemFormService) is an
     explicit state record `WorkItemState`; the async fan-out in the
     source is sequentialised field-major then map-order, which matches
     the microtask resolution order of the source on an immediate host.
   - lodash `uniq` and `intersection` are modelled by `uniq` and
     `lintersection` below.
   - A JavaScript runtime TypeError (indexing a property of `undefined`)
     is modelled as `Except.error ()`. -/

set_option maxRecDepth 8192
set_option linter.unusedVariables false

/-- Entry of a Cascade Definition: either a plain string (the sentinel or
    reserved-key metadata such as hint text) or an explicit list of
    permitted values.  Mirrors the TypeScript value type string | string[]. -/
inductive CascadeValue where
  | str (s : String)
  | list (vs : List String)
  deriving DecidableEq

/-- A Cascade Definition: dependent field name (or reserved key) to entry. -/
abbrev CascadeDefinition := List (String × CascadeValue)

/-- A rule set for one parent field: parent value to Cascade Definition. -/
abbrev CascadeRuleSet := List (String × CascadeDefinition)

/-- The raw configuration: parent field name to rule set. -/
abbrev CascadeConfiguration := List (String × CascadeRuleSet)

/-- The per-parent entry of the Cascade Map (ICascade in types.ts). -/
structure ICascade where
  alters : List String
  cascades : CascadeRuleSet
  deriving DecidableEq

/-- The Cascade Map: parent field name to ICascade. -/
abbrev CascadeMap := List (String × ICascade)

/-- A JavaScript value flowing into the FieldOptions accumulator:
    undefined, a bare string, or an array of strings. -/
inductive JSOptions where
  | undef
  | str (s : String)
  | arr (vs : List String)
  deriving DecidableEq

/-- The FieldOptions accumulator: dependent field name to options value. -/
abbrev FieldOptions := List (String × JSOptions)

/-- First-match association-list lookup, modelling JavaScript property
    access obj[k] (object keys are unique, so first-match is exact). -/
def alookup {α : Type} : List (String × α) → String → Option α
  | [], _ => none
  | pr :: rest, k => if pr.1 == k then some pr.2 else alookup rest k

/-- In-place value replacement for a present key, modelling obj[k] = v. -/
def assocSet {α : Type} (l : List (String × α)) (k : String) (v : α) :
    List (String × α) :=
  l.map (fun pr => if pr.1 == k then (k, v) else pr)

/-- lodash uniq with an explicit seen accumulator: the first occurrence of
    each element is kept, in order. -/
def uniqAux : List String → List String → List String
  | _, [] => []
  | seen, x :: xs =>
    if seen.contains x then uniqAux seen xs else x :: uniqAux (x :: seen) xs

/-- lodash uniq. -/
def uniq (l : List String) : List String := uniqAux [] l

/-- lodash intersection of two arrays: the unique values of the first
    array that also occur in the second, in first-array order. -/
def lintersection (xs ys : List String) : List String :=
  uniq (xs.filter (fun a => ys.contains a))

/-- lodash intersection as called at cascading.service.ts:126 on raw
    JavaScript values: any non-array argument yields the empty array. -/
def jsIntersection : JSOptions → JSOptions → JSOptions
  | JSOptions.arr xs, JSOptions.arr ys => JSOptions.arr (lintersection xs ys)
  | _, _ => JSOptions.arr []

/-- The accumulation performed per affected field across its constraining
    parents: the first contributed set seeds the accumulator and every
    later one is intersected into it (cascading.service.ts:125-129). -/
def fieldAccum : List (List String) → List String
  | [] => []
  | x :: xs => xs.foldl lintersection x

/-- Modelled from the spec: the FieldOptionsFlags.All sentinel constant of
    types.ts (types.ts is not under src/); the spec scenario in section 8
    writes the sentinel token as the literal string All. -/
def FieldOptionsFlags.All : String := "All"

/-- createCascadingMap (cascading.service.ts:39-63).  The reserved-name
    constant RESERVED_FIELD_NAMES lives in types.ts, which is not under
    src/, so it is taken as a parameter `reserved` here and in every
    function that consumes it. -/
def createCascadingMap (reserved : List String)
    (cascadeConfiguration : Option CascadeConfiguration) : CascadeMap :=
  match cascadeConfiguration with
  | none => []
  | some entries =>
    entries.map (fun pr =>
      (pr.1,
       { alters :=
           uniq ((pr.2.map (fun pr2 =>
             (pr2.2.map Prod.fst).filter
               (fun field => !(reserved.contains field)))).flatten),
         cascades := pr.2 }))

/-- getAffectedFields (cascading.service.ts:65-79).  The source indexes
    the Cascade Map unconditionally; its only caller has already checked
    that the parent is a key, so the none branch is unreachable there. -/
def getAffectedFields (reserved : List String) (cm : CascadeMap)
    (fieldReferenceName fieldValue : String) : List String :=
  match alookup cm fieldReferenceName with
  | none => []
  | some c =>
    if fieldValue == "" then
      (uniq ((c.cascades.map (fun pr => pr.2.map Prod.fst)).flatten)).filter
        (fun k => !(reserved.contains k))
    else
      match alookup c.cascades fieldValue with
      | some d =>
        (d.map Prod.fst).filter (fun field => !(reserved.contains field))
      | none => []

/-- The work-item host form collaborator, an explicit state record:
    values   = getFieldValue (empty string encodes absent),
    allowed  = getAllowedFieldValues (full schema set, already stringified),
    filtered = getFilteredAllowedFieldValues (currently effective set;
               filterAllowedFieldValues overwrites it),
    error    = the surfaced form error (setError / clearError). -/
structure WorkItemState where
  values : String → String
  allowed : String → List String
  filtered : String → List String
  error : Option String

/-- The sentinel test at cascading.service.ts:115-116:
    typeof cascades[v]?.[field] === string and equal to FieldOptionsFlags.All. -/
def isAllSentinelEntry (c : ICascade) (v field : String) : Bool :=
  match (alookup c.cascades v).bind (fun d => alookup d field) with
  | some (CascadeValue.str s) => s == FieldOptionsFlags.All
  | _ => false

/-- The per-(parent, current value) options for one affected field
    (cascading.service.ts:113-123).  When the parent value is non-empty,
    not the sentinel, and has no Cascade Definition, the source evaluates
    cascades[fieldValue][field] on undefined: a TypeError, modelled as
    Except.error. -/
def pairOptions (st : WorkItemState) (c : ICascade) (field v : String) :
    Except Unit JSOptions :=
  if (v == "") || isAllSentinelEntry c v field then
    Except.ok (JSOptions.arr (st.allowed field))
  else
    match alookup c.cascades v with
    | none => Except.error ()
    | some d =>
      Except.ok
        (match alookup d field with
         | none => JSOptions.undef
         | some (CascadeValue.str s) => JSOptions.str s
         | some (CascadeValue.list vs) => JSOptions.arr vs)

/-- Whether `pairOptions` yields a genuine array. -/
def pairOk (st : WorkItemState) (c : ICascade) (field v : String) : Bool :=
  match pairOptions st c field v with
  | Except.ok (JSOptions.arr _) => true
  | _ => false

/-- The array produced by `pairOptions`, as a total function (empty when
    the result is not a genuine array). -/
def pairOptionsArr (st : WorkItemState) (c : ICascade) (field v : String) :
    List String :=
  match pairOptions st c field v with
  | Except.ok (JSOptions.arr vs) => vs
  | _ => []

/-- One (affected field, Cascade Map entry) step of prepareCascadeOptions
    (cascading.service.ts:109-131): skip parents that do not alter the
    field, otherwise merge the per-pair options into the accumulator. -/
def stepPair (st : WorkItemState) (field : String) (acc : FieldOptions)
    (pc : String × ICascade) : Except Unit FieldOptions :=
  if pc.2.alters.contains field then
    match pairOptions st pc.2 field (st.values pc.1) with
    | Except.error e => Except.error e
    | Except.ok opts =>
      match alookup acc field with
      | some prev => Except.ok (assocSet acc field (jsIntersection prev opts))
      | none => Except.ok (acc ++ [(field, opts)])
  else
    Except.ok acc

/-- All Cascade Map entries processed for one affected field. -/
def prepareField (st : WorkItemState) (field : String) :
    List (String × ICascade) → FieldOptions → Except Unit FieldOptions
  | [], acc => Except.ok acc
  | pc :: rest, acc =>
    match stepPair st field acc pc with
    | Except.error e => Except.error e
    | Except.ok acc2 => prepareField st field rest acc2

/-- All affected fields processed in order. -/
def prepareFields (st : WorkItemState) (cm : CascadeMap) :
    List String → FieldOptions → Except Unit FieldOptions
  | [], acc => Except.ok acc
  | field :: rest, acc =>
    match prepareField st field cm acc with
    | Except.error e => Except.error e
    | Except.ok acc2 => prepareFields st cm rest acc2

/-- prepareCascadeOptions (cascading.service.ts:103-137). -/
def prepareCascadeOptions (cm : CascadeMap) (st : WorkItemState)
    (affectedFields : List String) : Except Unit FieldOptions :=
  prepareFields st cm affectedFields []

/-- The Cascade Map entries whose alters list contains the given field:
    the parents that constrain it in prepareCascadeOptions. -/
def constrainingParents (cm : CascadeMap) (field : String) :
    List (String × ICascade) :=
  cm.filter (fun pc => pc.2.alters.contains field)

/-- Every constraining pair for every affected field yields a genuine
    array (the well-formedness the intersection characterisation needs). -/
def pairsWF (cm : CascadeMap) (st : WorkItemState)
    (affectedFields : List String) : Bool :=
  affectedFields.all (fun field =>
    cm.all (fun pc =>
      !(pc.2.alters.contains field) || pairOk st pc.2 field (st.values pc.1)))

/-- validateFilter (cascading.service.ts:81-86): the current value is
    valid when empty or contained in the filtered allowed set. -/
def validateFilter (st : WorkItemState) (fieldReferenceName : String) : Bool :=
  (st.values fieldReferenceName == "") ||
    (st.filtered fieldReferenceName).contains (st.values fieldReferenceName)

/-- filterAllowedFieldValues: the host replaces the effective allowed set
    of one field. -/
def filterField (st : WorkItemState) (f : String) (vs : List String) :
    WorkItemState :=
  { st with filtered := fun g => if g = f then vs else st.filtered g }

/-- The list actually handed to filterAllowedFieldValues.  The host
    collaborator interface only specifies behaviour for genuine arrays;
    the other constructors do not occur in the runs characterised below. -/
def optionsAsList : JSOptions → List String
  | JSOptions.arr vs => vs
  | _ => []

/-- The error message of cascading.service.ts:167 (the source wraps the
    field name in single quote characters, elided here). -/
def errorMessage (fieldReferenceName : String) : String :=
  "Field " ++ fieldReferenceName ++ " value is invalid"

/-- setError on the host form. -/
def setErrorState (st : WorkItemState) (f : String) : WorkItemState :=
  { st with error := some (errorMessage f) }

/-- clearError on the host form. -/
def clearErrorState (st : WorkItemState) : WorkItemState :=
  { st with error := none }

/-- The filter-then-validate loop of performCascading
    (cascading.service.ts:163-170): apply the filter, validate, and on the
    first invalid field set the error and stop. -/
def cascadeLoop (st : WorkItemState) : FieldOptions → WorkItemState
  | [] => st
  | (f, v) :: rest =>
    let st1 := filterField st f (optionsAsList v)
    if validateFilter st1 f then cascadeLoop st1 rest else setErrorState st1 f

/-- The state after unconditionally applying the filters of a prefix of
    the Field Options, with no validation. -/
def applyFilters (st : WorkItemState) (l : FieldOptions) : WorkItemState :=
  l.foldl (fun s pr => filterField s pr.1 (optionsAsList pr.2)) st

/-- Every field of the list validates successfully at the moment its
    filter has just been applied. -/
def allValid (st : WorkItemState) : FieldOptions → Bool
  | [] => true
  | (f, v) :: rest =>
    let st1 := filterField st f (optionsAsList v)
    validateFilter st1 f && allValid st1 rest

/-- Modelled from the spec: HintService.hintFieldValue of hints.service.ts
    (not under src/) is best-effort and side-effect-only; per section 6 of
    the spec its failures must not abort the cascade pass, so the caller
    discards its outcome.  The failure mode is surfaced as a flag. -/
def hintFieldValue (fails : Bool) (cascadeMap : CascadeMap)
    (fieldName fieldValue : String) : Except Unit Unit :=
  if fails then Except.error () else Except.ok ()

/-- performCascading (cascading.service.ts:148-171): read the changed
    value, clear the error, stop when the changed field is not a parent,
    otherwise hint, resolve affected fields, compute Field Options and run
    the filter-validate loop.  A TypeError inside prepareCascadeOptions
    rejects the whole pass: none. -/
def performCascading (reserved : List String) (hintFails : Bool)
    (cm : CascadeMap) (st : WorkItemState)
    (changedFieldReferenceName : String) : Option WorkItemState :=
  let changedFieldValue := st.values changedFieldReferenceName
  let st1 := clearErrorState st
  if (alookup cm changedFieldReferenceName).isSome then
    let _hint := hintFieldValue hintFails cm changedFieldReferenceName changedFieldValue
    match prepareCascadeOptions cm st1
        (getAffectedFields reserved cm changedFieldReferenceName changedFieldValue) with
    | Except.error _ => none
    | Except.ok opts => some (cascadeLoop st1 opts)
  else
    some st1

/-- validateCascades (cascading.service.ts:181-211).  The authoritative
    field catalog is fetched from the remote work-item-tracking client in
    the source; it is external data, taken here as the parameter
    `fieldList` (the referenceName projection, ts:192). -/
def validateCascades (reserved fieldList : List String)
    (cascades : CascadeConfiguration) : Option (List String) :=
  let top := (cascades.map Prod.fst).filter (fun f => !(fieldList.contains f))
  let total := cascades.foldl (fun acc pr =>
    pr.2.foldl (fun acc2 pr2 =>
      acc2 ++ (pr2.2.map Prod.fst).filter
        (fun f => !(reserved.contains f) && !(fieldList.contains f))) acc) top
  if total.length > 0 then some total else none

-- ===== witness fixtures =====

/-- Two parents P1 and P2 that both constrain F, with explicit lists
    a,b,c and b,c,d (the spec scenario for intersection). -/
def cmC1 : CascadeMap :=
  createCascadingMap []
    (some [("P1", [("on", [("F", CascadeValue.list ["a", "b", "c"])])]),
           ("P2", [("on", [("F", CascadeValue.list ["b", "c", "d"])])])])

/-- The same two parents registered in the opposite order. -/
def cmC1swap : CascadeMap :=
  createCascadingMap []
    (some [("P2", [("on", [("F", CascadeValue.list ["b", "c", "d"])])]),
           ("P1", [("on", [("F", CascadeValue.list ["a", "b", "c"])])])])

/-- Host state with both parents set to the value on. -/
def stC1 : WorkItemState :=
  { values := fun f => if f = "P1" then "on" else if f = "P2" then "on" else "",
    allowed := fun _ => ["a", "b", "c", "d"],
    filtered := fun _ => ["a", "b", "c", "d"],
    error := none }

/-- A parent with two value rules and a reserved hint key. -/
def icC2 : ICascade :=
  { alters := ["F", "G"],
    cascades := [("a", [("F", CascadeValue.list ["x"]),
                        ("hint", CascadeValue.str "pick")]),
                 ("b", [("G", CascadeValue.list ["y"])])] }

/-- The Cascade Map built from the rules of icC2. -/
def cmC2 : CascadeMap :=
  createCascadingMap ["hint"] (some [("P", icC2.cascades)])

/-- A parent whose value a constrains both F and G. -/
def cmC3 : CascadeMap :=
  createCascadingMap []
    (some [("P", [("a", [("F", CascadeValue.list ["x"]),
                         ("G", CascadeValue.list ["y"])])])])

/-- Host state where P is a and F currently holds the value bad, which is
    outside the explicit list for F. -/
def stC3 : WorkItemState :=
  { values := fun f => if f = "P" then "a" else if f = "F" then "bad" else "",
    allowed := fun _ => ["x", "y", "bad"],
    filtered := fun _ => ["x", "y", "bad"],
    error := none }

/-- A configuration where F appears under two values of P (dedup check)
    next to a reserved hint key. -/
def cfgC4 : CascadeConfiguration :=
  [("P", [("a", [("F", CascadeValue.list ["x"]),
                 ("hint", CascadeValue.str "pick")]),
          ("b", [("F", CascadeValue.list ["y"]),
                 ("G", CascadeValue.list ["z"])])])]

/-- The Cascade Map entry built from cfgC4. -/
def icC4 : ICascade :=
  { alters := ["F", "G"],
    cascades := [("a", [("F", CascadeValue.list ["x"]),
                        ("hint", CascadeValue.str "pick")]),
                 ("b", [("F", CascadeValue.list ["y"]),
                        ("G", CascadeValue.list ["z"])])] }

/-- One parent rule for the value a only. -/
def cmC6 : CascadeMap :=
  createCascadingMap []
    (some [("P", [("a", [("F", CascadeValue.list ["x"])])])])

/-- The Cascade Map entry of cmC6. -/
def icC6 : ICascade :=
  { alters := ["F"], cascades := [("a", [("F", CascadeValue.list ["x"])])] }

/-- Host state where P holds b, a value with no Cascade Definition. -/
def stC6 : WorkItemState :=
  { values := fun f => if f = "P" then "b" else "",
    allowed := fun _ => ["x"],
    filtered := fun _ => ["x"],
    error := none }

/-- Host state with a stale error, for the no-op orchestration case. -/
def stC9 : WorkItemState :=
  { values := fun _ => "v",
    allowed := fun _ => ["v"],
    filtered := fun _ => ["v"],
    error := some "stale" }

/-- A configuration in which the unknown field Bad occurs under two
    different parent values. -/
def cfgC10 : CascadeConfiguration :=
  [("P", [("v1", [("Bad", CascadeValue.list [])]),
          ("v2", [("Bad", CascadeValue.list [])])])]

-- ===== theorems =====

theorem mem_uniqAux (x : String) :
    ∀ (l seen : List String), x ∈ uniqAux seen l ↔ (x ∈ l ∧ ¬ x ∈ seen)
  | [], seen => by simp [uniqAux]
  | y :: ys, seen => by
    rw [uniqAux]
    by_cases h : y ∈ seen
    · rw [if_pos (by simpa using h), mem_uniqAux x ys seen]
      simp only [List.mem_cons]
      constructor
      · rintro ⟨hx, hs⟩
        exact ⟨Or.inr hx, hs⟩
      · rintro ⟨hx | hx, hs⟩
        · subst hx; exact absurd h hs
        · exact ⟨hx, hs⟩
    · rw [if_neg (by simpa using h)]
      rw [List.mem_cons, mem_uniqAux x ys (y :: seen)]
      simp only [List.mem_cons]
      constructor
      · rintro (rfl | ⟨hx, hs⟩)
        · exact ⟨Or.inl rfl, h⟩
        · exact ⟨Or.inr hx, fun hq => hs (Or.inr hq)⟩
      · rintro ⟨rfl | hx, hs⟩
        · exact Or.inl rfl
        · rcases eq_or_ne x y with rfl | hne
          · exact Or.inl rfl
          · exact Or.inr ⟨hx, fun hq => hq.elim (fun he => hne he) (fun h2 => hs h2)⟩

theorem mem_uniq (x : String) (l : List String) : x ∈ uniq l ↔ x ∈ l := by
  rw [uniq, mem_uniqAux]
  simp

theorem nodup_uniqAux :
    ∀ (l seen : List String), (uniqAux seen l).Nodup
  | [], _ => List.nodup_nil
  | y :: ys, seen => by
    rw [uniqAux]
    by_cases h : y ∈ seen
    · rw [if_pos (by simpa using h)]
      exact nodup_uniqAux ys seen
    · rw [if_neg (by simpa using h)]
      refine List.nodup_cons.mpr ⟨?_, nodup_uniqAux ys (y :: seen)⟩
      intro hmem
      rcases (mem_uniqAux y ys (y :: seen)).1 hmem with ⟨_, hs⟩
      exact hs (List.mem_cons_self y seen)

theorem nodup_uniq (l : List String) : (uniq l).Nodup := nodup_uniqAux l []

theorem mem_lintersection (x : String) (xs ys : List String) :
    x ∈ lintersection xs ys ↔ (x ∈ xs ∧ x ∈ ys) := by
  rw [lintersection, mem_uniq]
  simp

theorem mem_foldl_lintersection (x : String) :
    ∀ (l : List (List String)) (a : List String),
      x ∈ List.foldl lintersection a l ↔ (x ∈ a ∧ ∀ s ∈ l, x ∈ s)
  | [], a => by simp
  | s :: rest, a => by
    rw [List.foldl_cons, mem_foldl_lintersection x rest (lintersection a s),
      mem_lintersection]
    constructor
    · rintro ⟨⟨ha, hs⟩, hrest⟩
      refine ⟨ha, fun t ht => ?_⟩
      rcases List.mem_cons.mp ht with rfl | ht
      · exact hs
      · exact hrest t ht
    · rintro ⟨ha, hall⟩
      exact ⟨⟨ha, hall s (List.mem_cons_self s rest)⟩,
        fun t ht => hall t (List.mem_cons_of_mem _ ht)⟩

theorem mem_fieldAccum (x : String) :
    ∀ (l : List (List String)), x ∈ fieldAccum l ↔ (l ≠ [] ∧ ∀ s ∈ l, x ∈ s)
  | [] => by simp [fieldAccum]
  | s :: rest => by
    rw [fieldAccum, mem_foldl_lintersection]
    constructor
    · rintro ⟨hs, hrest⟩
      refine ⟨by simp, fun t ht => ?_⟩
      rcases List.mem_cons.mp ht with rfl | ht
      · exact hs
      · exact hrest t ht
    · rintro ⟨_, hall⟩
      exact ⟨hall s (List.mem_cons_self s rest),
        fun t ht => hall t (List.mem_cons_of_mem _ ht)⟩

theorem alookup_assocSet_ne {α : Type} (k g : String) (v : α) (hne : g ≠ k) :
    ∀ l : List (String × α), alookup (assocSet l k v) g = alookup l g
  | [] => rfl
  | pr :: rest => by
    rw [assocSet, List.map_cons]
    by_cases h : (pr.1 == k) = true
    · have hpk : pr.1 = k := by simpa using h
      rw [if_pos h, alookup, alookup]
      rw [if_neg (by simp [Ne.symm hne]), if_neg (by simp [hpk, Ne.symm hne])]
      exact alookup_assocSet_ne k g v hne rest
    · rw [if_neg h, alookup, alookup]
      by_cases h2 : (pr.1 == g) = true
      · rw [if_pos h2, if_pos h2]
      · rw [if_neg h2, if_neg h2]
        exact alookup_assocSet_ne k g v hne rest

theorem alookup_assocSet_self {α : Type} (k : String) (v : α) :
    ∀ l : List (String × α), (alookup l k).isSome = true →
      alookup (assocSet l k v) k = some v
  | [], h => by simp [alookup] at h
  | pr :: rest, h => by
    rw [assocSet, List.map_cons]
    by_cases hp : (pr.1 == k) = true
    · rw [if_pos hp, alookup, if_pos (by simp)]
    · rw [if_neg hp, alookup, if_neg hp]
      rw [alookup, if_neg hp] at h
      exact alookup_assocSet_self k v rest h

theorem alookup_append_single {α : Type} (k g : String) (v : α) :
    ∀ l : List (String × α),
      alookup (l ++ [(k, v)]) g =
        (match alookup l g with
         | some w => some w
         | none => if k == g then some v else none)
  | [] => by
    rw [List.nil_append, alookup, alookup, alookup]
  | pr :: rest => by
    rw [List.cons_append, alookup, alookup]
    by_cases hp : (pr.1 == g) = true
    · rw [if_pos hp, if_pos hp]
    · rw [if_neg hp, if_neg hp]
      exact alookup_append_single k g v rest

theorem alookup_append_self {α : Type} (k : String) (v : α)
    (l : List (String × α)) (h : alookup l k = none) :
    alookup (l ++ [(k, v)]) k = some v := by
  rw [alookup_append_single, h]
  simp

theorem alookup_append_ne {α : Type} (k g : String) (v : α)
    (l : List (String × α)) (hne : g ≠ k) :
    alookup (l ++ [(k, v)]) g = alookup l g := by
  rw [alookup_append_single]
  cases h : alookup l g with
  | some w => rfl
  | none => simp [Ne.symm hne]

theorem jsIntersection_arr (xs ys : List String) :
    jsIntersection (JSOptions.arr xs) (JSOptions.arr ys) =
      JSOptions.arr (lintersection xs ys) := rfl

theorem pairOk_spec (st : WorkItemState) (c : ICascade) (field v : String)
    (h : pairOk st c field v = true) :
    pairOptions st c field v =
      Except.ok (JSOptions.arr (pairOptionsArr st c field v)) := by
  unfold pairOk at h
  unfold pairOptionsArr
  cases hp : pairOptions st c field v with
  | error e => rw [hp] at h; simp at h
  | ok o =>
    cases o with
    | undef => rw [hp] at h; simp at h
    | str s => rw [hp] at h; simp at h
    | arr vs => rfl

theorem prepareField_seeded (st : WorkItemState) (field : String) :
    ∀ (ps : List (String × ICascade)) (acc : FieldOptions) (seed : List String),
      alookup acc field = some (JSOptions.arr seed) →
      (∀ pc ∈ ps, pc.2.alters.contains field = true →
        pairOk st pc.2 field (st.values pc.1) = true) →
      ∃ acc2, prepareField st field ps acc = Except.ok acc2 ∧
        alookup acc2 field = some (JSOptions.arr
          (List.foldl lintersection seed
            ((ps.filter (fun pc => pc.2.alters.contains field)).map
              (fun pc => pairOptionsArr st pc.2 field (st.values pc.1))))) ∧
        ∀ g, g ≠ field → alookup acc2 g = alookup acc g
  | [], acc, seed, hacc, _ =>
    ⟨acc, rfl, by simpa using hacc, fun g _ => rfl⟩
  | pc :: rest, acc, seed, hacc, hwf => by
    by_cases hc : pc.2.alters.contains field = true
    · have hok := hwf pc (List.mem_cons_self pc rest) hc
      have hp := pairOk_spec st pc.2 field (st.values pc.1) hok
      have hstep : stepPair st field acc pc =
          Except.ok (assocSet acc field (JSOptions.arr
            (lintersection seed (pairOptionsArr st pc.2 field (st.values pc.1))))) := by
        rw [stepPair, if_pos hc, hp, hacc]
        rfl
      have hacc2 : alookup (assocSet acc field (JSOptions.arr
          (lintersection seed (pairOptionsArr st pc.2 field (st.values pc.1))))) field =
          some (JSOptions.arr
            (lintersection seed (pairOptionsArr st pc.2 field (st.values pc.1)))) := by
        apply alookup_assocSet_self
        rw [hacc]; rfl
      obtain ⟨acc3, heq3, hchar3, hframe3⟩ :=
        prepareField_seeded st field rest _ _ hacc2
          (fun q hq hcq => hwf q (List.mem_cons_of_mem _ hq) hcq)
      refine ⟨acc3, ?_, ?_, ?_⟩
      · rw [prepareField, hstep]; exact heq3
      · rw [hchar3]
        have hcm : field ∈ pc.2.alters := by simpa using hc
        simp [List.filter_cons, hcm]
      · intro g hg
        rw [hframe3 g hg, alookup_assocSet_ne field g _ hg acc]
    · have hstep : stepPair st field acc pc = Except.ok acc := by
        rw [stepPair, if_neg hc]
      obtain ⟨acc3, heq3, hchar3, hframe3⟩ :=
        prepareField_seeded st field rest acc seed hacc
          (fun q hq hcq => hwf q (List.mem_cons_of_mem _ hq) hcq)
      refine ⟨acc3, ?_, ?_, hframe3⟩
      · rw [prepareField, hstep]; exact heq3
      · rw [hchar3]
        have hcm : ¬ field ∈ pc.2.alters := by simpa using hc
        simp [List.filter_cons, hcm]

theorem prepareField_fresh (st : WorkItemState) (field : String) :
    ∀ (ps : List (String × ICascade)) (acc : FieldOptions),
      alookup acc field = none →
      (∀ pc ∈ ps, pc.2.alters.contains field = true →
        pairOk st pc.2 field (st.values pc.1) = true) →
      ∃ acc2, prepareField st field ps acc = Except.ok acc2 ∧
        alookup acc2 field =
          (match (ps.filter (fun pc => pc.2.alters.contains field)).map
              (fun pc => pairOptionsArr st pc.2 field (st.values pc.1)) with
           | [] => none
           | w :: l => some (JSOptions.arr (List.foldl lintersection w l))) ∧
        ∀ g, g ≠ field → alookup acc2 g = alookup acc g
  | [], acc, hacc, _ => ⟨acc, rfl, by simpa using hacc, fun g _ => rfl⟩
  | pc :: rest, acc, hacc, hwf => by
    by_cases hc : pc.2.alters.contains field = true
    · have hok := hwf pc (List.mem_cons_self pc rest) hc
      have hp := pairOk_spec st pc.2 field (st.values pc.1) hok
      have hstep : stepPair st field acc pc =
          Except.ok (acc ++ [(field,
            JSOptions.arr (pairOptionsArr st pc.2 field (st.values pc.1)))]) := by
        rw [stepPair, if_pos hc, hp, hacc]
      have hacc2 : alookup (acc ++ [(field,
          JSOptions.arr (pairOptionsArr st pc.2 field (st.values pc.1)))]) field =
          some (JSOptions.arr (pairOptionsArr st pc.2 field (st.values pc.1))) :=
        alookup_append_self field _ acc hacc
      obtain ⟨acc3, heq3, hchar3, hframe3⟩ :=
        prepareField_seeded st field rest _ _ hacc2
          (fun q hq hcq => hwf q (List.mem_cons_of_mem _ hq) hcq)
      refine ⟨acc3, ?_, ?_, ?_⟩
      · rw [prepareField, hstep]; exact heq3
      · rw [hchar3]
        have hcm : field ∈ pc.2.alters := by simpa using hc
        simp [List.filter_cons, hcm]
      · intro g hg
        rw [hframe3 g hg, alookup_append_ne field g _ acc hg]
    · have hstep : stepPair st field acc pc = Except.ok acc := by
        rw [stepPair, if_neg hc]
      obtain ⟨acc3, heq3, hchar3, hframe3⟩ :=
        prepareField_fresh st field rest acc hacc
          (fun q hq hcq => hwf q (List.mem_cons_of_mem _ hq) hcq)
      refine ⟨acc3, ?_, ?_, hframe3⟩
      · rw [prepareField, hstep]; exact heq3
      · rw [hchar3]
        have hcm : ¬ field ∈ pc.2.alters := by simpa using hc
        simp [List.filter_cons, hcm]

theorem prepareFields_spec (st : WorkItemState) (cm : CascadeMap) :
    ∀ (affected : List String) (acc : FieldOptions),
      affected.Nodup →
      (∀ field ∈ affected, ∀ pc ∈ cm, pc.2.alters.contains field = true →
        pairOk st pc.2 field (st.values pc.1) = true) →
      (∀ field ∈ affected, alookup acc field = none) →
      ∃ opts, prepareFields st cm affected acc = Except.ok opts ∧
        (∀ field ∈ affected, alookup opts field =
          (match (constrainingParents cm field).map
              (fun pc => pairOptionsArr st pc.2 field (st.values pc.1)) with
           | [] => none
           | w :: l => some (JSOptions.arr (List.foldl lintersection w l)))) ∧
        (∀ g, ¬ g ∈ affected → alookup opts g = alookup acc g)
  | [], acc, _, _, _ => ⟨acc, rfl, by simp, fun g _ => rfl⟩
  | field :: rest, acc, hnd, hwf, hfresh => by
    obtain ⟨acc2, heq2, hchar2, hframe2⟩ :=
      prepareField_fresh st field cm acc
        (hfresh field (List.mem_cons_self field rest))
        (fun pc hpc hcc => hwf field (List.mem_cons_self field rest) pc hpc hcc)
    have hndr : rest.Nodup := (List.nodup_cons.mp hnd).2
    have hfr : ¬ field ∈ rest := (List.nodup_cons.mp hnd).1
    obtain ⟨opts, heq, hchar, hframe⟩ :=
      prepareFields_spec st cm rest acc2 hndr
        (fun f hf pc hpc hcc => hwf f (List.mem_cons_of_mem _ hf) pc hpc hcc)
        (fun f hf => by
          rw [hframe2 f (fun he => hfr (he ▸ hf))]
          exact hfresh f (List.mem_cons_of_mem _ hf))
    refine ⟨opts, ?_, ?_, ?_⟩
    · rw [prepareFields, heq2]; exact heq
    · intro f hf
      rcases List.mem_cons.mp hf with rfl | hf
      · rw [hframe f hfr, hchar2]
        rfl
      · exact hchar f hf
    · intro g hg
      rw [hframe g (fun hgr => hg (List.mem_cons_of_mem _ hgr)),
        hframe2 g (fun he => hg (he ▸ List.mem_cons_self field rest))]

theorem pairsWF_spec (cm : CascadeMap) (st : WorkItemState)
    (affected : List String) :
    pairsWF cm st affected = true ↔
      ∀ field ∈ affected, ∀ pc ∈ cm, pc.2.alters.contains field = true →
        pairOk st pc.2 field (st.values pc.1) = true := by
  rw [pairsWF, List.all_eq_true]
  constructor
  · intro h field hf pc hpc hc
    have h2 := List.all_eq_true.mp (h field hf) pc hpc
    rcases Bool.or_eq_true_iff.mp h2 with h3 | h3
    · rw [Bool.not_eq_true' ] at h3
      rw [hc] at h3
      cases h3
    · exact h3
  · intro h field hf
    rw [List.all_eq_true]
    intro pc hpc
    by_cases hc : pc.2.alters.contains field = true
    · exact Bool.or_eq_true_iff.mpr (Or.inr (h field hf pc hpc hc))
    · exact Bool.or_eq_true_iff.mpr (Or.inl (by simp [Bool.not_eq_true'] at hc ⊢; simpa using hc))

theorem prepareCascadeOptions_char (cm : CascadeMap) (st : WorkItemState)
    (affected : List String) (hnd : affected.Nodup)
    (hwf : pairsWF cm st affected = true) :
    ∃ opts, prepareCascadeOptions cm st affected = Except.ok opts ∧
      ∀ field ∈ affected, alookup opts field =
        (match (constrainingParents cm field).map
            (fun pc => pairOptionsArr st pc.2 field (st.values pc.1)) with
         | [] => none
         | w :: l => some (JSOptions.arr (List.foldl lintersection w l))) := by
  obtain ⟨opts, heq, hchar, _⟩ :=
    prepareFields_spec st cm affected [] hnd
      ((pairsWF_spec cm st affected).mp hwf) (fun _ _ => rfl)
  exact ⟨opts, heq, hchar⟩

theorem prepare_none_of_no_constraining (cm : CascadeMap) (st : WorkItemState)
    (affected : List String) (field : String) (opts : FieldOptions)
    (hnd : affected.Nodup) (hwf : pairsWF cm st affected = true)
    (hf : field ∈ affected)
    (heq : prepareCascadeOptions cm st affected = Except.ok opts)
    (hemp : constrainingParents cm field = []) :
    alookup opts field = none := by
  obtain ⟨opts2, heq2, hchar⟩ := prepareCascadeOptions_char cm st affected hnd hwf
  rw [heq] at heq2
  have hoo : opts = opts2 := Except.ok.inj heq2
  subst hoo
  have hc := hchar field hf
  rw [hemp] at hc
  simpa using hc

theorem prepare_some_of_constraining (cm : CascadeMap) (st : WorkItemState)
    (affected : List String) (field : String) (opts : FieldOptions)
    (hnd : affected.Nodup) (hwf : pairsWF cm st affected = true)
    (hf : field ∈ affected)
    (heq : prepareCascadeOptions cm st affected = Except.ok opts)
    (hne : constrainingParents cm field ≠ []) :
    ∃ vs, alookup opts field = some (JSOptions.arr vs) := by
  obtain ⟨opts2, heq2, hchar⟩ := prepareCascadeOptions_char cm st affected hnd hwf
  rw [heq] at heq2
  have hoo : opts = opts2 := Except.ok.inj heq2
  subst hoo
  have hc := hchar field hf
  cases hcp : (constrainingParents cm field).map
      (fun pc => pairOptionsArr st pc.2 field (st.values pc.1)) with
  | nil =>
    exact absurd (List.map_eq_nil_iff.mp hcp) hne
  | cons w l =>
    rw [hcp] at hc
    exact ⟨List.foldl lintersection w l, hc⟩

theorem prepare_mem_char (cm : CascadeMap) (st : WorkItemState)
    (affected : List String) (field : String) (opts : FieldOptions)
    (vs : List String) (hnd : affected.Nodup)
    (hwf : pairsWF cm st affected = true) (hf : field ∈ affected)
    (heq : prepareCascadeOptions cm st affected = Except.ok opts)
    (halo : alookup opts field = some (JSOptions.arr vs)) :
    ∀ x, x ∈ vs ↔ ∀ pc ∈ constrainingParents cm field,
      x ∈ pairOptionsArr st pc.2 field (st.values pc.1) := by
  obtain ⟨opts2, heq2, hchar⟩ := prepareCascadeOptions_char cm st affected hnd hwf
  rw [heq] at heq2
  have hoo : opts = opts2 := Except.ok.inj heq2
  subst hoo
  have hc := hchar field hf
  have hmap : ∀ (y : String),
      (∀ s ∈ (constrainingParents cm field).map
        (fun pc => pairOptionsArr st pc.2 field (st.values pc.1)), y ∈ s) ↔
      (∀ pc ∈ constrainingParents cm field,
        y ∈ pairOptionsArr st pc.2 field (st.values pc.1)) := by
    intro y
    constructor
    · intro h pc hpc
      exact h _ (List.mem_map_of_mem _ hpc)
    · intro h s hs
      obtain ⟨pc, hpc, rfl⟩ := List.mem_map.mp hs
      exact h pc hpc
  cases hcp : (constrainingParents cm field).map
      (fun pc => pairOptionsArr st pc.2 field (st.values pc.1)) with
  | nil =>
    rw [hcp] at hc
    rw [halo] at hc
    cases hc
  | cons w l =>
    rw [hcp] at hc
    rw [halo] at hc
    have hvs : vs = List.foldl lintersection w l := by
      have h2 := Option.some.inj hc
      exact JSOptions.arr.inj h2
    intro x
    rw [hvs, mem_foldl_lintersection, ← hmap x, hcp, List.forall_mem_cons]

theorem applyFilters_nil (st : WorkItemState) : applyFilters st [] = st := rfl

theorem applyFilters_cons (st : WorkItemState) (f : String) (v : JSOptions)
    (rest : FieldOptions) :
    applyFilters st ((f, v) :: rest) =
      applyFilters (filterField st f (optionsAsList v)) rest := rfl

theorem applyFilters_filtered_frame (g : String) :
    ∀ (l : FieldOptions) (st : WorkItemState), ¬ g ∈ l.map Prod.fst →
      (applyFilters st l).filtered g = st.filtered g
  | [], st, _ => rfl
  | (f, v) :: rest, st, hg => by
    have hgf : ¬ g = f := fun he => hg (by simp [he])
    rw [applyFilters_cons,
      applyFilters_filtered_frame g rest _
        (fun h => hg (List.mem_cons_of_mem _ h))]
    simp [filterField, hgf]

theorem cascadeLoop_all_valid :
    ∀ (l : FieldOptions) (st : WorkItemState), allValid st l = true →
      cascadeLoop st l = applyFilters st l
  | [], st, _ => rfl
  | (f, v) :: rest, st, h => by
    simp only [allValid, Bool.and_eq_true] at h
    simp only [cascadeLoop]
    rw [if_pos h.1, applyFilters_cons]
    exact cascadeLoop_all_valid rest _ h.2

theorem cascadeLoop_first_invalid :
    ∀ (pre : FieldOptions) (st : WorkItemState) (f : String) (v : JSOptions)
      (post : FieldOptions),
      allValid st pre = true →
      validateFilter (applyFilters st (pre ++ [(f, v)])) f = false →
      cascadeLoop st (pre ++ (f, v) :: post) =
        setErrorState (applyFilters st (pre ++ [(f, v)])) f
  | [], st, f, v, post, _, hbad => by
    simp only [List.nil_append] at hbad ⊢
    simp only [applyFilters_cons, applyFilters_nil] at hbad ⊢
    simp only [cascadeLoop]
    rw [if_neg (by simp [hbad])]
  | (g, w) :: pre, st, f, v, post, hval, hbad => by
    simp only [allValid, Bool.and_eq_true] at hval
    simp only [List.cons_append] at hbad ⊢
    simp only [applyFilters_cons] at hbad ⊢
    simp only [cascadeLoop]
    rw [if_pos hval.1]
    exact cascadeLoop_first_invalid pre _ f v post hval.2 hbad

theorem performCascading_eq_of_ok (reserved : List String) (hintFails : Bool)
    (cm : CascadeMap) (st : WorkItemState) (changed : String)
    (opts : FieldOptions)
    (hin : (alookup cm changed).isSome = true)
    (hprep : prepareCascadeOptions cm (clearErrorState st)
      (getAffectedFields reserved cm changed (st.values changed)) =
        Except.ok opts) :
    performCascading reserved hintFails cm st changed =
      some (cascadeLoop (clearErrorState st) opts) := by
  simp only [performCascading]
  rw [if_pos hin, hprep]

theorem foldl_append_flatten {α β : Type} (g : α → List β) :
    ∀ (l : List α) (init : List β),
      l.foldl (fun acc x => acc ++ g x) init = init ++ (l.map g).flatten
  | [], init => by simp
  | x :: l, init => by
    rw [List.foldl_cons, foldl_append_flatten g l (init ++ g x)]
    simp [List.append_assoc]

theorem validateCascades_total (reserved fieldList : List String) :
    ∀ (cascades : CascadeConfiguration) (init : List String),
      cascades.foldl (fun acc pr =>
        pr.2.foldl (fun acc2 pr2 =>
          acc2 ++ (pr2.2.map Prod.fst).filter
            (fun f => !(reserved.contains f) && !(fieldList.contains f))) acc)
        init =
      init ++ (cascades.map (fun pr =>
        (pr.2.map (fun pr2 => (pr2.2.map Prod.fst).filter
          (fun f => !(reserved.contains f) && !(fieldList.contains f)))).flatten)).flatten
  | [], init => by simp
  | pr :: l, init => by
    rw [List.foldl_cons,
      foldl_append_flatten
        (fun pr2 => (pr2.2.map Prod.fst).filter
          (fun f => !(reserved.contains f) && !(fieldList.contains f))) pr.2 init,
      validateCascades_total reserved fieldList l _]
    simp [List.append_assoc]

/-- C1: prepareCascadeOptions succeeds and maps each affected field to the
    intersection, over every Cascade Map parent whose alters list contains
    it, of the per-(parent, current host value) permitted sets computed by
    pairOptions (the full schema allowed set when the value is empty or
    the entry is the All sentinel, the explicitly stored list otherwise);
    a field constrained by no parent gets no entry.  The witness realises
    the spec scenario: explicit lists a,b,c and b,c,d intersect to b,c. -/
theorem prepareCascadeOptions_intersects_constraining
    (cm : CascadeMap) (st : WorkItemState) (affected : List String)
    (hnd : affected.Nodup) (hwf : pairsWF cm st affected = true) :
    ∃ opts, prepareCascadeOptions cm st affected = Except.ok opts ∧
      ∀ field ∈ affected,
        (constrainingParents cm field = [] → alookup opts field = none) ∧
        (constrainingParents cm field ≠ [] →
          ∃ vs, alookup opts field = some (JSOptions.arr vs)) ∧
        (∀ vs, alookup opts field = some (JSOptions.arr vs) →
          ∀ x, x ∈ vs ↔ ∀ pc ∈ constrainingParents cm field,
            x ∈ pairOptionsArr st pc.2 field (st.values pc.1)) := by
  obtain ⟨opts, heq, hchar⟩ := prepareCascadeOptions_char cm st affected hnd hwf
  refine ⟨opts, heq, fun field hf => ⟨?_, ?_, ?_⟩⟩
  · exact fun hemp =>
      prepare_none_of_no_constraining cm st affected field opts hnd hwf hf heq hemp
  · exact fun hne =>
      prepare_some_of_constraining cm st affected field opts hnd hwf hf heq hne
  · exact fun vs halo =>
      prepare_mem_char cm st affected field opts vs hnd hwf hf heq halo

/-- C1 witness: the two-parent scenario evaluated concretely. -/
theorem prepareCascadeOptions_intersects_witness :
    (["F"] : List String).Nodup ∧
    pairsWF cmC1 stC1 ["F"] = true ∧
    prepareCascadeOptions cmC1 stC1 ["F"] =
      Except.ok [("F", JSOptions.arr ["b", "c"])] ∧
    (∃ opts, prepareCascadeOptions cmC1 stC1 ["F"] = Except.ok opts ∧
      ∀ field ∈ (["F"] : List String),
        (constrainingParents cmC1 field = [] → alookup opts field = none) ∧
        (constrainingParents cmC1 field ≠ [] →
          ∃ vs, alookup opts field = some (JSOptions.arr vs)) ∧
        (∀ vs, alookup opts field = some (JSOptions.arr vs) →
          ∀ x, x ∈ vs ↔ ∀ pc ∈ constrainingParents cmC1 field,
            x ∈ pairOptionsArr stC1 pc.2 field (stC1.values pc.1))) :=
  ⟨by decide, rfl, rfl,
    prepareCascadeOptions_intersects_constraining cmC1 stC1 ["F"] (by decide) rfl⟩

/-- C2: for a parent that is a key of the Cascade Map, getAffectedFields
    returns the deduplicated union of the non-reserved Cascade Definition
    keys when the parent value is empty, the non-reserved keys of the
    matching Cascade Definition when one exists, and the empty list when a
    non-empty value has no matching rule. -/
theorem getAffectedFields_cases (reserved : List String) (cm : CascadeMap)
    (p v : String) (c : ICascade) (hc : alookup cm p = some c) :
    (v = "" →
      (getAffectedFields reserved cm p v).Nodup ∧
      ∀ f, f ∈ getAffectedFields reserved cm p v ↔
        (reserved.contains f = false ∧
          ∃ pr ∈ c.cascades, ∃ e ∈ pr.2, e.1 = f)) ∧
    (∀ d, ¬ v = "" → alookup c.cascades v = some d →
      getAffectedFields reserved cm p v =
        (d.map Prod.fst).filter (fun field => !(reserved.contains field))) ∧
    (¬ v = "" → alookup c.cascades v = none →
      getAffectedFields reserved cm p v = []) := by
  refine ⟨?_, ?_, ?_⟩
  · intro hv
    subst hv
    simp only [getAffectedFields, hc]
    rw [if_pos (by rfl)]
    refine ⟨(nodup_uniq _).filter _, ?_⟩
    intro f
    rw [List.mem_filter, mem_uniq]
    simp only [List.mem_flatten, List.mem_map, Bool.not_eq_true']
    constructor
    · rintro ⟨⟨s, ⟨pr, hpr, rfl⟩, hf⟩, hres⟩
      obtain ⟨e, he, rfl⟩ := List.mem_map.mp hf
      exact ⟨hres, pr, hpr, e, he, rfl⟩
    · rintro ⟨hres, pr, hpr, e, he, rfl⟩
      exact ⟨⟨pr.2.map Prod.fst, ⟨pr, hpr, rfl⟩, List.mem_map_of_mem _ he⟩, hres⟩
  · intro d hv hd
    simp only [getAffectedFields, hc]
    rw [if_neg (fun h => hv (by simpa using h)), hd]
  · intro hv hd
    simp only [getAffectedFields, hc]
    rw [if_neg (fun h => hv (by simpa using h)), hd]

/-- C2 witness: the empty-value case on a two-rule parent with a reserved
    hint key. -/
theorem getAffectedFields_witness :
    alookup cmC2 "P" = some icC2 ∧
    getAffectedFields ["hint"] cmC2 "P" "" = ["F", "G"] ∧
    ((getAffectedFields ["hint"] cmC2 "P" "").Nodup ∧
      ∀ f, f ∈ getAffectedFields ["hint"] cmC2 "P" "" ↔
        ((["hint"] : List String).contains f = false ∧
          ∃ pr ∈ icC2.cascades, ∃ e ∈ pr.2, e.1 = f)) :=
  ⟨rfl, rfl,
    (getAffectedFields_cases ["hint"] cmC2 "P" "" icC2 rfl).1 rfl⟩

/-- C4: createCascadingMap maps an absent configuration to the empty map
    and otherwise keeps every parent key and its rule set unchanged while
    computing alters as the deduplicated, reserved-free union of the
    non-reserved keys of all value-keyed Cascade Definitions. -/
theorem createCascadingMap_spec (reserved : List String) :
    createCascadingMap reserved none = [] ∧
    ∀ cfg : CascadeConfiguration,
      (createCascadingMap reserved (some cfg)).map Prod.fst = cfg.map Prod.fst ∧
      ∀ entry ∈ createCascadingMap reserved (some cfg),
        entry.2.alters.Nodup ∧
        (∀ f, f ∈ entry.2.alters ↔
          (reserved.contains f = false ∧
            ∃ pr2 ∈ entry.2.cascades, ∃ e ∈ pr2.2, e.1 = f)) ∧
        (entry.1, entry.2.cascades) ∈ cfg := by
  refine ⟨rfl, fun cfg => ⟨?_, ?_⟩⟩
  · simp only [createCascadingMap, List.map_map]
    rfl
  · intro entry hentry
    simp only [createCascadingMap] at hentry
    obtain ⟨pr, hpr, rfl⟩ := List.mem_map.mp hentry
    refine ⟨nodup_uniq _, ?_, hpr⟩
    intro f
    rw [mem_uniq]
    simp only [List.mem_flatten, List.mem_map]
    constructor
    · rintro ⟨s, ⟨pr2, hpr2, rfl⟩, hf⟩
      rw [List.mem_filter] at hf
      obtain ⟨hf1, hres⟩ := hf
      obtain ⟨e, he, rfl⟩ := List.mem_map.mp hf1
      exact ⟨by simpa using hres, pr2, hpr2, e, he, rfl⟩
    · rintro ⟨hres, pr2, hpr2, e, he, rfl⟩
      refine ⟨(pr2.2.map Prod.fst).filter
        (fun field => !(reserved.contains field)), ⟨pr2, hpr2, rfl⟩, ?_⟩
      rw [List.mem_filter]
      exact ⟨List.mem_map_of_mem _ he, by simpa using hres⟩

/-- C4 witness: the dedup and reserved-exclusion behaviour on cfgC4. -/
theorem createCascadingMap_witness :
    createCascadingMap ["hint"] none = [] ∧
    (createCascadingMap ["hint"] (some cfgC4)).map Prod.fst =
      cfgC4.map Prod.fst ∧
    ("P", icC4) ∈ createCascadingMap ["hint"] (some cfgC4) ∧
    (icC4.alters.Nodup ∧
      (∀ f, f ∈ icC4.alters ↔
        ((["hint"] : List String).contains f = false ∧
          ∃ pr2 ∈ icC4.cascades, ∃ e ∈ pr2.2, e.1 = f)) ∧
      (("P", icC4).1, ("P", icC4).2.cascades) ∈ cfgC4) :=
  ⟨rfl, rfl, by decide,
    ((createCascadingMap_spec ["hint"]).2 cfgC4).2 ("P", icC4) (by decide)⟩

theorem ite_length_none {γ : Type} (l : List γ) :
    (if l.length > 0 then some l else none) = none ↔ l = [] := by
  cases l with
  | nil => simp
  | cons a t => simp

theorem ite_length_some {γ : Type} (l l2 : List γ)
    (h : (if l.length > 0 then some l else none) = some l2) : l2 = l := by
  cases l with
  | nil => simp at h
  | cons a t =>
    rw [if_pos (by simp)] at h
    exact (Option.some.inj h).symm

/-- C3: during orchestration the computed Field Options pairs are
    processed in order: each field is filtered then validated (valid iff
    the current value is empty or in the host filtered allowed set); on
    the first invalid field the error message naming it is set, and no
    later pair is filtered or validated in the pass. -/
theorem performCascading_stops_at_first_invalid
    (reserved : List String) (hintFails : Bool) (cm : CascadeMap)
    (st : WorkItemState) (changed : String) (pre post : FieldOptions)
    (f : String) (v : JSOptions)
    (hin : (alookup cm changed).isSome = true)
    (hprep : prepareCascadeOptions cm (clearErrorState st)
      (getAffectedFields reserved cm changed (st.values changed)) =
        Except.ok (pre ++ (f, v) :: post))
    (hval : allValid (clearErrorState st) pre = true)
    (hbad : validateFilter
      (applyFilters (clearErrorState st) (pre ++ [(f, v)])) f = false) :
    performCascading reserved hintFails cm st changed =
      some (setErrorState
        (applyFilters (clearErrorState st) (pre ++ [(f, v)])) f) ∧
    (setErrorState (applyFilters (clearErrorState st) (pre ++ [(f, v)])) f).error =
      some (errorMessage f) ∧
    (∀ g, ¬ g ∈ pre.map Prod.fst → ¬ g = f →
      (setErrorState (applyFilters (clearErrorState st) (pre ++ [(f, v)])) f).filtered g =
        st.filtered g) ∧
    (∀ (st2 : WorkItemState) (f2 : String),
      validateFilter st2 f2 = true ↔
        (st2.values f2 = "" ∨ st2.values f2 ∈ st2.filtered f2)) := by
  refine ⟨?_, rfl, ?_, ?_⟩
  · rw [performCascading_eq_of_ok reserved hintFails cm st changed _ hin hprep,
      cascadeLoop_first_invalid pre (clearErrorState st) f v post hval hbad]
  · intro g hg hgf
    have hmem : ¬ g ∈ (pre ++ [(f, v)]).map Prod.fst := by
      rw [List.map_append]
      intro hm
      rcases List.mem_append.mp hm with hm1 | hm1
      · exact hg hm1
      · exact hgf (by simpa using hm1)
    show (applyFilters (clearErrorState st) (pre ++ [(f, v)])).filtered g =
      st.filtered g
    rw [applyFilters_filtered_frame g (pre ++ [(f, v)]) (clearErrorState st) hmem]
    rfl
  · intro st2 f2
    rw [validateFilter, Bool.or_eq_true]
    constructor
    · rintro (h | h)
      · exact Or.inl (by simpa using h)
      · exact Or.inr (by simpa using h)
    · rintro (h | h)
      · exact Or.inl (by simpa using h)
      · exact Or.inr (by simpa using h)

/-- C3 witness: F fails validation after its filter is applied; the pair
    for G after it is left untouched. -/
theorem performCascading_first_invalid_witness :
    (alookup cmC3 "P").isSome = true ∧
    prepareCascadeOptions cmC3 (clearErrorState stC3)
      (getAffectedFields [] cmC3 "P" (stC3.values "P")) =
      Except.ok ([] ++ ("F", JSOptions.arr ["x"]) :: [("G", JSOptions.arr ["y"])]) ∧
    allValid (clearErrorState stC3) [] = true ∧
    validateFilter (applyFilters (clearErrorState stC3)
      ([] ++ [("F", JSOptions.arr ["x"])])) "F" = false ∧
    performCascading [] false cmC3 stC3 "P" =
      some (setErrorState (applyFilters (clearErrorState stC3)
        ([] ++ [("F", JSOptions.arr ["x"])])) "F") :=
  ⟨rfl, rfl, rfl, rfl,
    (performCascading_stops_at_first_invalid [] false cmC3 stC3 "P" []
      [("G", JSOptions.arr ["y"])] "F" (JSOptions.arr ["x"]) rfl rfl rfl rfl).1⟩

/-- C5: validateCascades returns null exactly when every top-level key and
    every nested non-reserved Cascade Definition key occurs in the field
    catalog, and otherwise returns the invalid top-level keys followed by
    the invalid nested keys, one entry per occurrence. -/
theorem validateCascades_none_iff (reserved fieldList : List String)
    (cfg : CascadeConfiguration) :
    (validateCascades reserved fieldList cfg = none ↔
      ((∀ pr ∈ cfg, fieldList.contains pr.1 = true) ∧
       (∀ pr ∈ cfg, ∀ pr2 ∈ pr.2, ∀ e ∈ pr2.2,
         reserved.contains e.1 = false → fieldList.contains e.1 = true))) ∧
    (∀ l, validateCascades reserved fieldList cfg = some l →
      l = (cfg.map Prod.fst).filter (fun f => !(fieldList.contains f)) ++
        (cfg.map (fun pr =>
          (pr.2.map (fun pr2 => (pr2.2.map Prod.fst).filter
            (fun f => !(reserved.contains f) && !(fieldList.contains f)))).flatten)).flatten) := by
  have htot := validateCascades_total reserved fieldList cfg
    ((cfg.map Prod.fst).filter (fun f => !(fieldList.contains f)))
  constructor
  · simp only [validateCascades]
    rw [htot, ite_length_none, List.append_eq_nil]
    rw [List.filter_eq_nil_iff, List.flatten_eq_nil_iff]
    constructor
    · rintro ⟨h1, h2⟩
      constructor
      · intro pr hpr
        have h3 := h1 pr.1 (List.mem_map_of_mem Prod.fst hpr)
        simpa using h3
      · intro pr hpr pr2 hpr2 e he hres
        have h3 := h2 _ (List.mem_map_of_mem
          (fun pr => (pr.2.map (fun pr2 => (pr2.2.map Prod.fst).filter
            (fun f => !(reserved.contains f) && !(fieldList.contains f)))).flatten) hpr)
        rw [List.flatten_eq_nil_iff] at h3
        have h4 := h3 _ (List.mem_map_of_mem
          (fun pr2 => (pr2.2.map Prod.fst).filter
            (fun f => !(reserved.contains f) && !(fieldList.contains f))) hpr2)
        rw [List.filter_eq_nil_iff] at h4
        have h5 := h4 e.1 (List.mem_map_of_mem Prod.fst he)
        simp only [hres, Bool.not_false, Bool.true_and, Bool.not_eq_true'] at h5
        simpa using h5
    · rintro ⟨h1, h2⟩
      constructor
      · intro a ha
        obtain ⟨pr, hpr, rfl⟩ := List.mem_map.mp ha
        simpa using h1 pr hpr
      · intro s hs
        obtain ⟨pr, hpr, rfl⟩ := List.mem_map.mp hs
        rw [List.flatten_eq_nil_iff]
        intro t ht
        obtain ⟨pr2, hpr2, rfl⟩ := List.mem_map.mp ht
        rw [List.filter_eq_nil_iff]
        intro a ha2
        obtain ⟨e, he, rfl⟩ := List.mem_map.mp ha2
        intro hq
        simp only [Bool.and_eq_true, Bool.not_eq_true'] at hq
        have h6 := h2 pr hpr pr2 hpr2 e he hq.1
        rw [h6] at hq
        exact absurd hq.2 (by simp)
  · intro l hl
    simp only [validateCascades] at hl
    rw [htot] at hl
    exact ite_length_some _ l hl

/-- C5 witness: the some-branch equality evaluated on cfgC10. -/
theorem validateCascades_none_iff_witness :
    validateCascades [] ["P"] cfgC10 = some ["Bad", "Bad"] ∧
    (["Bad", "Bad"] : List String) =
      (cfgC10.map Prod.fst).filter (fun f => !((["P"] : List String).contains f)) ++
      (cfgC10.map (fun pr =>
        (pr.2.map (fun pr2 => (pr2.2.map Prod.fst).filter
          (fun f => !(([] : List String).contains f) &&
            !((["P"] : List String).contains f)))).flatten)).flatten :=
  ⟨rfl, (validateCascades_none_iff [] ["P"] cfgC10).2 ["Bad", "Bad"] rfl⟩

/-- C6 counterexample: P is in the Cascade Map and alters F, the host
    holds the value b for P, b has no Cascade Definition, and the option
    computation faults (the source evaluates cascades[b][F] with
    cascades[b] undefined), contradicting the claim that the lookup is
    well-defined and never faults on reachable host states. -/
theorem prepareCascadeOptions_faults_on_unmatched_value :
    alookup cmC6 "P" = some icC6 ∧
    stC6.values "P" = "b" ∧
    alookup icC6.cascades "b" = none ∧
    prepareCascadeOptions cmC6 stC6 ["F"] = Except.error () :=
  ⟨rfl, rfl, rfl, rfl⟩

/-- C6 amended: when the parent value is non-empty and its rule set does
    contain a Cascade Definition for it with an explicit list for the
    affected field, the computation takes exactly that stored list; and
    whenever every constraining (parent, value) pair yields a genuine
    array, the whole option computation succeeds.  Totality holds only
    under that hypothesis, not for every reachable host state. -/
theorem pairOptions_explicit_list_cases :
    (∀ (st : WorkItemState) (c : ICascade) (field v : String)
      (d : CascadeDefinition) (vs : List String),
      ¬ v = "" →
      alookup c.cascades v = some d →
      alookup d field = some (CascadeValue.list vs) →
      pairOptions st c field v = Except.ok (JSOptions.arr vs)) ∧
    (∀ (cm : CascadeMap) (st : WorkItemState) (affected : List String),
      affected.Nodup → pairsWF cm st affected = true →
      (prepareCascadeOptions cm st affected).isOk = true) := by
  constructor
  · intro st c field v d vs hv hd hf
    have hs : isAllSentinelEntry c v field = false := by
      rw [isAllSentinelEntry, hd]
      simp [hf]
    have hb : (v == "") = false := by simpa using hv
    simp [pairOptions, hb, hs, hd, hf]
  · intro cm st affected hnd hwf
    obtain ⟨opts, heq, _⟩ := prepareCascadeOptions_char cm st affected hnd hwf
    rw [heq]
    rfl

/-- C6 amended witness: the explicit-list branch and the guarded totality
    evaluated concretely. -/
theorem pairOptions_explicit_list_witness :
    ¬ ("a" : String) = "" ∧
    alookup icC6.cascades "a" = some [("F", CascadeValue.list ["x"])] ∧
    alookup [("F", CascadeValue.list ["x"])] "F" =
      some (CascadeValue.list ["x"]) ∧
    pairOptions stC6 icC6 "F" "a" = Except.ok (JSOptions.arr ["x"]) ∧
    (["F"] : List String).Nodup ∧
    pairsWF cmC1 stC1 ["F"] = true ∧
    (prepareCascadeOptions cmC1 stC1 ["F"]).isOk = true :=
  ⟨by decide, rfl, rfl,
    pairOptions_explicit_list_cases.1 stC6 icC6 "F" "a"
      [("F", CascadeValue.list ["x"])] ["x"] (by decide) rfl rfl,
    by decide, rfl,
    pairOptions_explicit_list_cases.2 cmC1 stC1 ["F"] (by decide) rfl⟩

/-- C7: the per-field accumulation is order-invariant up to set equality:
    lodash intersection is commutative and idempotent on membership, and
    running prepareCascadeOptions over any permutation of the Cascade Map
    yields the same set of allowed values for every affected field. -/
theorem fieldOptions_order_invariant :
    (∀ (a b : List String) (x : String),
      x ∈ lintersection a b ↔ x ∈ lintersection b a) ∧
    (∀ (a : List String) (x : String), x ∈ lintersection a a ↔ x ∈ a) ∧
    (∀ (cm cm2 : CascadeMap) (st : WorkItemState) (affected : List String)
      (field x : String) (opts opts2 : FieldOptions) (vs vs2 : List String),
      cm.Perm cm2 → affected.Nodup →
      pairsWF cm st affected = true → field ∈ affected →
      prepareCascadeOptions cm st affected = Except.ok opts →
      prepareCascadeOptions cm2 st affected = Except.ok opts2 →
      alookup opts field = some (JSOptions.arr vs) →
      alookup opts2 field = some (JSOptions.arr vs2) →
      (x ∈ vs ↔ x ∈ vs2)) := by
  refine ⟨?_, ?_, ?_⟩
  · intro a b x
    rw [mem_lintersection, mem_lintersection]
    exact and_comm
  · intro a x
    rw [mem_lintersection, and_self]
  · intro cm cm2 st affected field x opts opts2 vs vs2 hperm hnd hwf hf heq heq2 halo halo2
    have hwf2 : pairsWF cm2 st affected = true := by
      rw [pairsWF_spec]
      intro f2 hf2 pc hpc hcc
      exact (pairsWF_spec cm st affected).mp hwf f2 hf2 pc (hperm.mem_iff.mpr hpc) hcc
    have hm := prepare_mem_char cm st affected field opts vs hnd hwf hf heq halo
    have hm2 := prepare_mem_char cm2 st affected field opts2 vs2 hnd hwf2 hf heq2 halo2
    rw [hm x, hm2 x]
    constructor
    · intro h pc hpc
      exact h pc ((hperm.filter _).mem_iff.mpr hpc)
    · intro h pc hpc
      exact h pc ((hperm.filter _).mem_iff.mp hpc)

/-- C7 witness: the two-parent map and its swap produce equal option sets
    for F. -/
theorem fieldOptions_order_witness :
    cmC1.Perm cmC1swap ∧
    prepareCascadeOptions cmC1swap stC1 ["F"] =
      Except.ok [("F", JSOptions.arr ["b", "c"])] ∧
    (("b" : String) ∈ (["b", "c"] : List String) ↔
      ("b" : String) ∈ (["b", "c"] : List String)) :=
  ⟨by decide, rfl,
    fieldOptions_order_invariant.2.2 cmC1 cmC1swap stC1 ["F"] "F" "b"
      [("F", JSOptions.arr ["b", "c"])] [("F", JSOptions.arr ["b", "c"])]
      ["b", "c"] ["b", "c"] (by decide) (by decide) rfl (by decide)
      rfl rfl rfl rfl⟩

/-- C8: a failure of the hint collaborator does not abort the cascade
    pass: hintFieldValue (spec-modelled as best-effort, its outcome
    discarded by the orchestrator) fails, yet performCascading produces
    exactly the state of a run whose hint succeeds, so affected-field
    resolution, option computation, filtering and validation all still
    happen. -/
theorem performCascading_ignores_hint_failure (reserved : List String)
    (cm : CascadeMap) (st : WorkItemState) (changed : String) :
    hintFieldValue true cm changed (st.values changed) = Except.error () ∧
    performCascading reserved true cm st changed =
      performCascading reserved false cm st changed :=
  ⟨rfl, rfl⟩

/-- C9: when the triggering field is not a parent in the Cascade Map,
    performCascading only clears the error: it emits no hint, applies no
    filter, sets no error message, and leaves values, allowed sets and
    filtered sets untouched. -/
theorem performCascading_noop_when_not_parent (reserved : List String)
    (hintFails : Bool) (cm : CascadeMap) (st : WorkItemState)
    (changed : String) (h : alookup cm changed = none) :
    performCascading reserved hintFails cm st changed =
      some (clearErrorState st) ∧
    (clearErrorState st).values = st.values ∧
    (clearErrorState st).allowed = st.allowed ∧
    (clearErrorState st).filtered = st.filtered ∧
    (clearErrorState st).error = none := by
  refine ⟨?_, rfl, rfl, rfl, rfl⟩
  simp [performCascading, h]

/-- C9 witness: a triggering field outside an empty Cascade Map. -/
theorem performCascading_noop_witness :
    alookup ([] : CascadeMap) "AnyField" = none ∧
    performCascading [] true [] stC9 "AnyField" = some (clearErrorState stC9) :=
  ⟨rfl, (performCascading_noop_when_not_parent [] true [] stC9 "AnyField" rfl).1⟩

/-- C10: validateCascades does not deduplicate its findings: in cfgC10 the
    unknown field Bad occurs in the Cascade Definitions of two different
    parent values and is reported once per occurrence. -/
theorem validateCascades_reports_each_occurrence :
    validateCascades [] ["P"] cfgC10 = some ["Bad", "Bad"] := rfl
